import Mathlib

/-!
# Verification of the EduDRISHTI feature-aggregation and anomaly-scoring pipeline

Shallow embedding of the repository's pipeline:

* `master_data.py` — per-center aggregation of student marks (sample standard
  deviation, adjusted Fisher–Pearson skewness, excess kurtosis), rounding of the
  stored moment columns to 3 decimals, derived ratio/gap columns, and the left
  merge of the aggregated features into the center-stats table.
* `anomaly_detection.py` — feature selection, one-hot encoding of `state`,
  standard scaling, isolation-forest scoring and flagging, and the assembly of
  the result table (`Anomaly_Flag`, `Anomaly_Score`, `Anomaly_Type`).

The scripts delegate the algorithmic core (the moment estimators, the scaler,
`pd.get_dummies`, and `IsolationForest`) to pandas/scikit-learn, whose code is
not part of this repository.  Those components are modelled here from the
specification (see the `Modelled from the spec:` doc comments); the glue code in
`src/` is embedded directly.

Modelling conventions: pandas float columns are modelled as `ℚ`-valued (exact)
or `ℝ`-valued where square roots/logarithms occur; a float value that pandas
leaves undefined (`NaN`/`inf`, e.g. a moment of a too-small group or a division
by a zero denominator) is modelled as `none` of an `Option` type.
-/

namespace EduDrishti

/-! ## Rounding (pandas `DataFrame.round(3)`, numpy half-to-even) -/

/-- Round a real number to the nearest integer, ties to even
(numpy/pandas rounding used by `.round`). -/
noncomputable def roundHalfEvenR (x : ℝ) : ℤ :=
  if x - ⌊x⌋ < 1 / 2 then ⌊x⌋
  else if 1 / 2 < x - ⌊x⌋ then ⌊x⌋ + 1
  else if 2 ∣ ⌊x⌋ then ⌊x⌋ else ⌊x⌋ + 1

/-- `round(x, 3)`: round to 3 decimal digits (pandas `.round(3)`). -/
noncomputable def round3R (x : ℝ) : ℝ := (roundHalfEvenR (1000 * x) : ℝ) / 1000

/-! ## Data model (`master_data.py`)

A student-marks row (`NEET_2024_Marks_By_State_City_Center`, after dropping
`sno`) is a pair `(center_id, marks)`.  A center-stats row
(`NEET_2024_CenterWise_Stats`) carries the per-center columns used by the
pipeline. -/

/-- One row of the center-wise stats table (`df_center_stats`). -/
structure CenterStats where
  center_id : ℕ
  total_students : ℕ
  above_600_marks : ℕ
  above_700_marks : ℕ
  center_average_marks : ℚ
  state_average_marks : ℚ
  national_average_marks : ℚ
  state : String
  city : String
  center_name : String
deriving DecidableEq

/-- The marks of the group of student rows with the given `center_id`
(pandas `df_marks.groupby('center_id')['marks']`). -/
def marksOf (c : ℕ) (rows : List (ℕ × ℚ)) : List ℚ :=
  (rows.filter (fun r => r.1 == c)).map (fun r => r.2)

/-- The distinct center ids occurring in the marks table: the group keys of
`groupby('center_id')`.  (pandas emits the keys sorted; key order is irrelevant
here because all downstream access is by key, via the merge.) -/
def centerIds (rows : List (ℕ × ℚ)) : List ℕ :=
  (rows.map (fun r => r.1)).dedup

/-! ## Moment estimators

Modelled from the spec: the sample standard deviation and the adjusted
Fisher–Pearson skewness / excess kurtosis computed by
`df_marks.groupby('center_id')['marks'].agg('std', pd.Series.skew,
pd.Series.kurt)` — the pandas implementations are not part of this repository.
The spec (§4.1) gives: std-dev with `N−1` denominator;
`skewness = [n/((n-1)(n-2))] · Σ((x−m)/s)³`;
`kurtosis = [n(n+1)/((n-1)(n-2)(n-3))] · Σ((x−m)/s)⁴ − 3(n-1)²/((n-2)(n-3))`;
groups too small for a moment (n<2 for std, n<3 for skewness, n<4 for kurtosis)
yield a missing value. -/

/-- Mean of a list of marks. -/
def qmean (xs : List ℚ) : ℚ := xs.sum / (xs.length : ℚ)

/-- Sample variance with `N−1` denominator. -/
def sampleVar (xs : List ℚ) : ℚ :=
  ((xs.map (fun x => (x - qmean xs) ^ 2)).sum) / ((xs.length : ℚ) - 1)

/-- Sample standard deviation; missing for groups of size `< 2`. -/
noncomputable def stdDev (xs : List ℚ) : Option ℝ :=
  if xs.length < 2 then none else some (Real.sqrt (sampleVar xs))

/-- Adjusted Fisher–Pearson sample skewness; missing for groups of size `< 3`.
(For a zero-variance group of size ≥ 3 the division-by-zero convention yields
`0`, matching pandas, which defines the ratio to be `0` when `m₂ = 0`.) -/
noncomputable def skewness (xs : List ℚ) : Option ℝ :=
  if xs.length < 3 then none
  else
    let n : ℝ := (xs.length : ℝ)
    let m : ℚ := qmean xs
    let s : ℝ := Real.sqrt (sampleVar xs)
    some ((n / ((n - 1) * (n - 2))) *
      (xs.map (fun x => (((x - m : ℚ) : ℝ) / s) ^ 3)).sum)

/-- Sample excess kurtosis; missing for groups of size `< 4`. -/
noncomputable def kurtosis (xs : List ℚ) : Option ℝ :=
  if xs.length < 4 then none
  else
    let n : ℝ := (xs.length : ℝ)
    let m : ℚ := qmean xs
    let s : ℝ := Real.sqrt (sampleVar xs)
    some ((n * (n + 1) / ((n - 1) * (n - 2) * (n - 3))) *
        (xs.map (fun x => (((x - m : ℚ) : ℝ) / s) ^ 4)).sum
      - 3 * (n - 1) ^ 2 / ((n - 2) * (n - 3)))

/-! ## The aggregated ML-features table (`df_marks_agg`, lines 40–49)

The script rounds the three moment columns to 3 decimals *in place* before the
merge, so the stored table holds the rounded values. -/

/-- One row of `df_marks_agg` (after the in-place `.round(3)`). -/
structure AggRow where
  center_id : ℕ
  Center_Std_Dev : Option ℝ
  Center_Skewness : Option ℝ
  Center_Kurtosis : Option ℝ

/-- The aggregated (and rounded) feature row for one center. -/
noncomputable def aggRowOf (rows : List (ℕ × ℚ)) (c : ℕ) : AggRow :=
  { center_id := c
    Center_Std_Dev := (stdDev (marksOf c rows)).map round3R
    Center_Skewness := (skewness (marksOf c rows)).map round3R
    Center_Kurtosis := (kurtosis (marksOf c rows)).map round3R }

/-- `df_marks_agg`: one row per distinct center id in the marks table. -/
noncomputable def marksAgg (rows : List (ℕ × ℚ)) : List AggRow :=
  (centerIds rows).map (aggRowOf rows)

/-! ## Derived ratio and gap columns (`master_data.py` lines 62–65)

pandas float division leaves `x / 0` undefined (`inf`/`NaN`); the undefined
value is modelled as `none`. -/

/-- `above_700_marks / total_students`; undefined when `total_students = 0`. -/
def ultraHighScoreRatio (s : CenterStats) : Option ℚ :=
  if s.total_students = 0 then none
  else some ((s.above_700_marks : ℚ) / (s.total_students : ℚ))

/-- `(above_600_marks + above_700_marks) / total_students`. -/
def highScoreRatio (s : CenterStats) : Option ℚ :=
  if s.total_students = 0 then none
  else some (((s.above_600_marks : ℚ) + (s.above_700_marks : ℚ)) / (s.total_students : ℚ))

/-- `center_average_marks - national_average_marks`. -/
def centerVNationalGap (s : CenterStats) : ℚ :=
  s.center_average_marks - s.national_average_marks

/-- `center_average_marks - state_average_marks`. -/
def centerVStateGap (s : CenterStats) : ℚ :=
  s.center_average_marks - s.state_average_marks

/-! ## The master table (`df_master`, lines 68–80) -/

/-- One row of the master table: the center-stats columns, the derived
ratio/gap columns, and the merged (rounded) moment columns. -/
structure MasterRow where
  stats : CenterStats
  Ultra_High_Score_Ratio : Option ℚ
  High_Score_Ratio : Option ℚ
  Center_v_National_Gap : ℚ
  Center_v_State_Gap : ℚ
  Center_Std_Dev : Option ℝ
  Center_Skewness : Option ℝ
  Center_Kurtosis : Option ℝ

/-- Combine a center-stats row with an aggregated-features row. -/
noncomputable def combineRow (s : CenterStats) (a : AggRow) : MasterRow :=
  { stats := s
    Ultra_High_Score_Ratio := ultraHighScoreRatio s
    High_Score_Ratio := highScoreRatio s
    Center_v_National_Gap := centerVNationalGap s
    Center_v_State_Gap := centerVStateGap s
    Center_Std_Dev := a.Center_Std_Dev
    Center_Skewness := a.Center_Skewness
    Center_Kurtosis := a.Center_Kurtosis }

/-- The all-missing aggregated row a left merge produces for an unmatched key. -/
def noMatchAgg (c : ℕ) : AggRow :=
  { center_id := c, Center_Std_Dev := none, Center_Skewness := none, Center_Kurtosis := none }

/-- `df_center_stats.merge(df_marks_agg, on='center_id', how='left')`:
every left row is kept; each is paired with the matching aggregated rows
(or with missing moment columns when no aggregated row matches). -/
noncomputable def masterOf (stats : List CenterStats) (marks : List (ℕ × ℚ)) :
    List MasterRow :=
  stats.flatMap (fun s =>
    let ms := (marksAgg marks).filter (fun a => a.center_id == s.center_id)
    if ms.isEmpty then [combineRow s (noMatchAgg s.center_id)]
    else ms.map (combineRow s))

/-- The aggregated row the merge associates with center id `c`. -/
noncomputable def aggFind (marks : List (ℕ × ℚ)) (c : ℕ) : AggRow :=
  if c ∈ centerIds marks then aggRowOf marks c else noMatchAgg c

/-! ## One-hot encoding of `state` (`anomaly_detection.py` line 35)

Modelled from the spec: `pd.get_dummies(..., columns=['state'], drop_first=True)`
is not part of this repository; the spec (§4.2) fixes its behavior to: sort the
observed categories, drop the first (reference) category, and give every other
observed category its own binary indicator column. -/

/-- The observed categories, sorted ascending and without duplicates. -/
def sortedCats (l : List String) : List String :=
  List.insertionSort (fun a b => a ≤ b) l.dedup

/-- The dropped (reference) category: the first in sorted order. -/
def droppedCat (l : List String) : Option String := (sortedCats l).head?

/-- The indicator columns: every observed category except the dropped one. -/
def dummyCols (l : List String) : List String := (sortedCats l).tail

/-- The one-hot encoding of a category value: one binary column per retained
category (a category not among the columns encodes as all zeros). -/
def encodeState (cols : List String) (st : String) : List ℚ :=
  cols.map (fun c2 => if st = c2 then 1 else 0)

/-! ## Isolation forest

Modelled from the spec: `sklearn.ensemble.IsolationForest` is not part of this
repository.  The model follows §4.3/§4.4 of the spec: `t` trees, each built from
a random subsample of `ψ` rows drawn without replacement, by recursive random
axis-aligned partitioning up to depth `⌈log₂ ψ⌉`; path lengths are credited with
`c(leaf size)` on early termination; the anomaly score of a point is
`2^(−E[h(x)] / c(ψ))`.  Randomness is modelled as a pure function of an explicit
PRNG state (a 64-bit linear congruential generator), per §9 of the spec.

A feature vector is a list of optionally-missing reals (§7: a record with a
missing feature is still scored using only its available features; a traversal
reaching a split on a missing feature terminates there and is credited with the
expected-depth adjustment `c(node size)`, like any other early termination). -/

/-- A feature vector: one optionally-missing value per feature column. -/
abbrev Vec := List (Option ℝ)

/-- One step of a 64-bit linear congruential generator. -/
def lcgNext (g : ℕ) : ℕ :=
  (6364136223846793005 * g + 1442695040888963407) % (2 ^ 64)

/-- Draw a natural number below `n` (and the advanced generator state). -/
def randNat (g n : ℕ) : ℕ × ℕ :=
  let g1 := lcgNext g
  (if n = 0 then 0 else g1 % n, g1)

/-- Draw a rational strictly between 0 and 1 (and the advanced state). -/
def randUnit (g : ℕ) : ℚ × ℕ :=
  let g1 := lcgNext g
  (((g1 % 4294967295 + 1 : ℕ) : ℚ) / 4294967296, g1)

/-- An isolation tree: internal nodes hold (feature index, split value, size of
the row set at the node); leaves hold the remaining row-set size. -/
inductive ITree where
  | leaf (size : ℕ)
  | node (feat : ℕ) (split : ℝ) (size : ℕ) (left right : ITree)

/-- The value of feature `f` in vector `x` (missing when out of range). -/
def getF (x : Vec) (f : ℕ) : Option ℝ := x.getD f none

/-- All rows of `S` identical (the degenerate stopping condition). -/
noncomputable def allSameRows (S : List Vec) : Bool :=
  match S with
  | [] => true
  | x :: t => @decide (∀ y ∈ t, y = x) (Classical.propDecidable _)

/-- Minimum of a list of reals (0 for the empty list, which never occurs at a
split: a split is only drawn when the node's row set is non-degenerate). -/
noncomputable def listMin (l : List ℝ) : ℝ :=
  match l with
  | [] => 0
  | x :: t => t.foldl min x

/-- Maximum of a list of reals. -/
noncomputable def listMax (l : List ℝ) : ℝ :=
  match l with
  | [] => 0
  | x :: t => t.foldl max x

/-- Build one isolation tree over row set `S` with `d` feature columns,
recursion bounded by the `fuel` depth limit.  At each non-degenerate node a
feature is drawn uniformly, a split value uniformly strictly between the
feature's minimum and maximum over `S`; rows with value `< split` go left, the
others right. -/
noncomputable def buildTree (d : ℕ) : ℕ → ℕ → List Vec → ITree × ℕ
  | 0, g, S => (ITree.leaf S.length, g)
  | fuel + 1, g, S =>
    if S.length ≤ 1 ∨ allSameRows S then (ITree.leaf S.length, g)
    else
      let pf := randNat g d
      let vals := S.filterMap (fun x => getF x pf.1)
      let pu := randUnit pf.2
      let split := listMin vals + (listMax vals - listMin vals) * (pu.1 : ℝ)
      let left := S.filter (fun x =>
        match getF x pf.1 with
        | some v => @decide (v < split) (Classical.propDecidable _)
        | none => false)
      let right := S.filter (fun x =>
        match getF x pf.1 with
        | some v => @decide (¬ v < split) (Classical.propDecidable _)
        | none => true)
      let resL := buildTree d fuel pu.2 left
      let resR := buildTree d fuel resL.2 right
      (ITree.node pf.1 split S.length resL.1 resR.1, resR.2)

/-- Draw `k` rows without replacement from `pool` (fewer when the pool runs
out). -/
noncomputable def subsample : ℕ → ℕ → List Vec → List Vec × ℕ
  | 0, g, _ => ([], g)
  | k + 1, g, pool =>
    if pool.isEmpty then ([], g)
    else
      let pi := randNat g pool.length
      let rest := subsample k pi.2 (pool.eraseIdx pi.1)
      (pool.getD pi.1 [] :: rest.1, rest.2)

/-- Build `t` isolation trees, each over an independent subsample of `ψ` rows
of `X`, threading the PRNG state. -/
noncomputable def buildForest : ℕ → ℕ → ℕ → List Vec → List ITree × ℕ
  | 0, _, g, _ => ([], g)
  | t + 1, psi, g, X =>
    let ps := subsample psi g X
    let pt := buildTree (X.headD []).length (Nat.clog 2 psi) ps.2 ps.1
    let rest := buildForest t psi pt.2 X
    (pt.1 :: rest.1, rest.2)

/-- The harmonic-number approximation `H(i) ≈ ln i + γ` used by the spec. -/
noncomputable def harmonicApprox (i : ℕ) : ℝ :=
  Real.log (i : ℝ) + 0.5772156649

/-- The expected path length `c(m) = 2·H(m−1) − 2(m−1)/m` of an unsuccessful
search in a balanced tree over `m` items (`c(m) = 0` for `m ≤ 1`). -/
noncomputable def cFactor (m : ℕ) : ℝ :=
  if m ≤ 1 then 0
  else 2 * harmonicApprox (m - 1) - 2 * ((m : ℝ) - 1) / (m : ℝ)

/-- Path length of point `x` in one tree: edges traversed to the terminating
position, plus the adjustment `c(size)` for the row-set size there. -/
noncomputable def pathLength : ITree → Vec → ℝ
  | ITree.leaf s, _ => cFactor s
  | ITree.node f split s l r, x =>
    match getF x f with
    | none => cFactor s
    | some v => if v < split then 1 + pathLength l x else 1 + pathLength r x

/-- Average path length `E[h(x)]` over the forest. -/
noncomputable def meanPath (F : List ITree) (x : Vec) : ℝ :=
  (F.map (fun t => pathLength t x)).sum / (F.length : ℝ)

/-- The anomaly score `2^(−E[h(x)] / c(ψ))` (§4.4). -/
noncomputable def anomalyScore (F : List ITree) (psi : ℕ) (x : Vec) : ℝ :=
  (2 : ℝ) ^ (-(meanPath F x) / cFactor psi)

/-! ## Contamination-quantile flagging (§4.4)

Modelled from the spec: flag the top `⌈p·n⌉` most-isolated points, breaking
score ties by `center_id` ascending. -/

/-- `a` ranks before `b`: strictly stronger isolation, or a tie on the score
broken by ascending center id. -/
def tieOrder {α : Type} [LinearOrder α] (a b : ℕ × α) : Prop :=
  b.2 < a.2 ∨ (a.2 = b.2 ∧ a.1 ≤ b.1)

instance {α : Type} [LinearOrder α] : DecidableRel (@tieOrder α _) := fun a b => by
  unfold tieOrder
  infer_instance

/-- `⌈p · n⌉` as a natural number. -/
def kOf (p : ℚ) (n : ℕ) : ℕ := (⌈p * (n : ℚ)⌉).toNat

/-- Rank the scored points (most isolated first, ties by center id ascending)
and mark exactly the top `⌈p·n⌉` of them as anomalies. -/
def rankAnomalies {α : Type} [LinearOrder α] (p : ℚ) (scored : List (ℕ × α)) :
    List ((ℕ × α) × Bool) :=
  let k := kOf p scored.length
  let s := List.insertionSort tieOrder scored
  (s.take k).map (fun a => (a, true)) ++ (s.drop k).map (fun a => (a, false))

/-- The flag of one scored point: `-1` when it is among the flagged points,
otherwise `1`. -/
def flagOf {α : Type} [LinearOrder α] (flagged : List (ℕ × α)) (a : ℕ × α) : ℤ :=
  if a ∈ flagged then -1 else 1

/-- The per-point prediction column (`model.predict`): `-1` for a flagged
anomaly, `1` for a normal point, in input row order. -/
def predictFlags {α : Type} [LinearOrder α] (p : ℚ) (ids : List ℕ) (scores : List α) :
    List ℤ :=
  let scored := ids.zip scores
  let flagged := ((rankAnomalies p scored).filter (fun a => a.2)).map (fun a => a.1)
  scored.map (flagOf flagged)

/-! ## The scoring pipeline (`anomaly_detection.py`)

The script selects the feature columns
`['Center_v_National_Gap', 'Center_Skewness', 'Center_Kurtosis',
'Ultra_High_Score_Ratio', 'total_students']`, one-hot encodes `state`, drops
the context column `total_students` from the scored set, standard-scales the
remaining columns, and fits/scores the isolation forest.

The standard scaler is modelled from the spec (§4.2): per-column mean/std over
the record population, computed over the defined entries of the column (a
missing entry takes no part in the fit and stays missing after the transform). -/

/-- The raw (pre-scaling) feature vector of one master row: the four numeric
feature columns, then the `state` indicator columns.  (`total_students` is
dropped from the scored feature set, line 38.) -/
noncomputable def rawFeatures (rows : List MasterRow) (r : MasterRow) : Vec :=
  [some ((r.Center_v_National_Gap : ℚ) : ℝ),
   r.Center_Skewness,
   r.Center_Kurtosis,
   r.Ultra_High_Score_Ratio.map (fun q => ((q : ℚ) : ℝ))]
  ++ (encodeState (dummyCols (rows.map (fun m => m.stats.state))) r.stats.state).map
      (fun q => some ((q : ℚ) : ℝ))

/-- Column `j` of the feature matrix. -/
def colOf (X : List Vec) (j : ℕ) : List (Option ℝ) :=
  X.map (fun w => w.getD j none)

/-- Per-column scaler statistics `(μ, σ)`, fitted over the defined entries of
the column. -/
noncomputable def colParams (col : List (Option ℝ)) : ℝ × ℝ :=
  let vs := col.filterMap id
  let mu := vs.sum / (vs.length : ℝ)
  (mu, Real.sqrt ((vs.map (fun v => (v - mu) ^ 2)).sum / (vs.length : ℝ)))

/-- Scale one entry with its column's fitted statistics; a missing entry is
excluded (it stays missing, and took no part in the fit). -/
noncomputable def scaleEntry (col : List (Option ℝ)) (v : Option ℝ) : Option ℝ :=
  v.map (fun x => (x - (colParams col).1) / (colParams col).2)

/-- Scale the entries of a row, column by column, starting at column `j`. -/
noncomputable def scaleRowAux (X : List Vec) (j : ℕ) : Vec → Vec
  | [] => []
  | v :: vs => scaleEntry (colOf X j) v :: scaleRowAux X (j + 1) vs

/-- Scale a whole row against the population matrix `X`. -/
noncomputable def scaleRow (X : List Vec) (v : Vec) : Vec := scaleRowAux X 0 v

/-- The standardized feature matrix of the master table (`X_scaled`). -/
noncomputable def scaledMatrix (rows : List MasterRow) : List Vec :=
  (rows.map (rawFeatures rows)).map (scaleRow (rows.map (rawFeatures rows)))

/-- The trained forest of the run (`model.fit(X_scaled)`). -/
noncomputable def pipelineForest (seed t psi : ℕ) (rows : List MasterRow) : List ITree :=
  (buildForest t psi seed (scaledMatrix rows)).1

/-- The anomaly score of one master row in the run. -/
noncomputable def pipelineScore (seed t psi : ℕ) (rows : List MasterRow) (r : MasterRow) : ℝ :=
  anomalyScore (pipelineForest seed t psi rows) psi
    (scaleRow (rows.map (rawFeatures rows)) (rawFeatures rows r))

/-- Every master row paired with its anomaly score (`df_results['Anomaly_Score']`). -/
noncomputable def scoredRows (seed t psi : ℕ) (rows : List MasterRow) :
    List (MasterRow × ℝ) :=
  rows.map (fun r => (r, pipelineScore seed t psi rows r))

/-- One row of the saved result table: the master row extended with exactly the
three result columns (`anomaly_detection.py` lines 65–76, 94–95). -/
structure ResultRow where
  base : MasterRow
  Anomaly_Flag : ℤ
  Anomaly_Score : ℝ
  Anomaly_Type : String

/-- The result-assembly stage: compute scores and flags, then extend every
master row with `Anomaly_Flag`, `Anomaly_Score` and
`Anomaly_Type = 'Anomalous Center' if flag == -1 else 'Normal Center'`. -/
noncomputable def anomalyStage (seed t psi : ℕ) (p : ℚ) (rows : List MasterRow) :
    List ResultRow :=
  let scores := rows.map (pipelineScore seed t psi rows)
  let flags := predictFlags p (rows.map (fun r => r.stats.center_id)) scores
  (rows.zip (flags.zip scores)).map (fun rfs =>
    { base := rfs.1
      Anomaly_Flag := rfs.2.1
      Anomaly_Score := rfs.2.2
      Anomaly_Type := if rfs.2.1 = -1 then "Anomalous Center" else "Normal Center" })

/-- The whole run as one value: the trained forest, the scored rows, and the
assembled result table — a pure function of the input rows and the seed. -/
noncomputable def runPipeline (seed t psi : ℕ) (p : ℚ) (rows : List MasterRow) :
    List ITree × List (MasterRow × ℝ) × List ResultRow :=
  (pipelineForest seed t psi rows, scoredRows seed t psi rows, anomalyStage seed t psi p rows)

/-! ## Concrete inputs used by witnesses and counterexamples -/

/-- A concrete marks table: one center (id 1) with marks `[0, 0, 1, 2]`. -/
def cexMarks : List (ℕ × ℚ) := [(1, 0), (1, 0), (1, 1), (1, 2)]

/-- A concrete center-stats row for center id 1. -/
def cexStats : CenterStats :=
  { center_id := 1, total_students := 10, above_600_marks := 2, above_700_marks := 1
    center_average_marks := 400, state_average_marks := 380, national_average_marks := 390
    state := "S1", city := "C1", center_name := "N1" }

/-- A concrete center-stats row with `total_students = 0` (center id 2). -/
def zeroStats : CenterStats :=
  { center_id := 2, total_students := 0, above_600_marks := 0, above_700_marks := 0
    center_average_marks := 0, state_average_marks := 380, national_average_marks := 390
    state := "S2", city := "C2", center_name := "N2" }

/-- A concrete master row whose moment features are all missing. -/
def missingMomentsRow : MasterRow :=
  { stats := cexStats
    Ultra_High_Score_Ratio := some (1 / 10)
    High_Score_Ratio := some (3 / 10)
    Center_v_National_Gap := 10
    Center_v_State_Gap := 20
    Center_Std_Dev := none
    Center_Skewness := none
    Center_Kurtosis := none }

/-! ### Structure of the merge -/

theorem centerIds_nodup (rows : List (ℕ × ℚ)) : (centerIds rows).Nodup :=
  List.nodup_dedup _

theorem marksOf_eq_nil (rows : List (ℕ × ℚ)) (c : ℕ) (h : c ∉ centerIds rows) :
    marksOf c rows = [] := by
  unfold marksOf
  rw [List.map_eq_nil_iff, List.filter_eq_nil_iff]
  intro r hr hc
  exact h (List.mem_dedup.mpr (List.mem_map.mpr ⟨r, hr, by simpa using hc⟩))

theorem filter_eq_of_nodup {l : List ℕ} (h : l.Nodup) (c : ℕ) :
    l.filter (fun x => x == c) = if c ∈ l then [c] else [] := by
  induction l with
  | nil => simp
  | cons a t ih =>
    rcases List.nodup_cons.mp h with ⟨ha, ht⟩
    by_cases hac : a = c
    · subst hac
      have hnil : t.filter (fun x => x == a) = [] := by
        rw [List.filter_eq_nil_iff]
        intro x hx hxa
        exact ha ((beq_iff_eq.mp hxa) ▸ hx)
      simp [List.filter_cons, hnil, List.mem_cons]
    · have hca : ¬ c = a := fun h' => hac h'.symm
      have hb : (a == c) = false := beq_false_of_ne hac
      simp [List.filter_cons, hb, ih ht, List.mem_cons, hca]

theorem marksAgg_filter (marks : List (ℕ × ℚ)) (c : ℕ) :
    (marksAgg marks).filter (fun a => a.center_id == c) =
      if c ∈ centerIds marks then [aggRowOf marks c] else [] := by
  unfold marksAgg
  rw [List.filter_map]
  have hcomp : ((fun a : AggRow => a.center_id == c) ∘ aggRowOf marks) =
      fun x => x == c := by
    funext x
    simp [aggRowOf]
  rw [hcomp, filter_eq_of_nodup (centerIds_nodup marks) c]
  split <;> simp

/-- The left merge, row by row: each center-stats row is combined with the
aggregated row found for its key (or the all-missing row). -/
theorem masterOf_eq (stats : List CenterStats) (marks : List (ℕ × ℚ)) :
    masterOf stats marks = stats.map (fun s => combineRow s (aggFind marks s.center_id)) := by
  induction stats with
  | nil => rfl
  | cons s t ih =>
    unfold masterOf at ih ⊢
    rw [List.flatMap_cons, ih, List.map_cons]
    rw [marksAgg_filter]
    unfold aggFind
    split <;> simp

/-! ### Missingness of the moment estimators -/

theorem stdDev_eq_none_iff (xs : List ℚ) : stdDev xs = none ↔ xs.length < 2 := by
  unfold stdDev
  split <;> simp_all

theorem skewness_eq_none_iff (xs : List ℚ) : skewness xs = none ↔ xs.length < 3 := by
  unfold skewness
  split <;> simp_all

theorem kurtosis_eq_none_iff (xs : List ℚ) : kurtosis xs = none ↔ xs.length < 4 := by
  unfold kurtosis
  split <;> simp_all

theorem stdDev_nil : stdDev [] = none := by simp [stdDev_eq_none_iff]

theorem skewness_nil : skewness [] = none := by simp [skewness_eq_none_iff]

theorem kurtosis_nil : kurtosis [] = none := by simp [kurtosis_eq_none_iff]

theorem marksOf_ne_nil_of_mem (rows : List (ℕ × ℚ)) (c : ℕ) (h : c ∈ centerIds rows) :
    marksOf c rows ≠ [] := by
  unfold centerIds at h
  rcases List.mem_map.mp (List.mem_dedup.mp h) with ⟨r, hr, hc⟩
  intro hnil
  have : r.2 ∈ marksOf c rows := by
    unfold marksOf
    exact List.mem_map.mpr ⟨r, List.mem_filter.mpr ⟨hr, by simp [hc]⟩, rfl⟩
  rw [hnil] at this
  exact List.not_mem_nil _ this

/-! ### Positivity of the expected-path-length normalizer -/

theorem cFactor_nonneg (m : ℕ) : 0 ≤ cFactor m := by
  unfold cFactor harmonicApprox
  split
  · exact le_refl 0
  · rename_i hm
    push_neg at hm
    have hm2 : 2 ≤ m := hm
    rcases eq_or_lt_of_le hm2 with he | hlt
    · subst he
      norm_num
    · have hm3 : 3 ≤ m := hlt
      have h1 : (2 : ℝ) ≤ ((m : ℝ) - 1) := by
        have : (3 : ℝ) ≤ (m : ℝ) := by exact_mod_cast hm3
        linarith
      have hlog2 : (0.6931471803 : ℝ) < Real.log 2 := Real.log_two_gt_d9
      have hlog : Real.log 2 ≤ Real.log ((m - 1 : ℕ) : ℝ) := by
        apply Real.log_le_log (by norm_num)
        have : ((m - 1 : ℕ) : ℝ) = (m : ℝ) - 1 := by
          have : 1 ≤ m := le_trans (by norm_num) hm2
          push_cast [Nat.cast_sub this]
          ring
        rw [this]
        exact h1
      have hfrac : 2 * ((m : ℝ) - 1) / (m : ℝ) < 2 := by
        have hmpos : (0 : ℝ) < (m : ℝ) := by positivity
        rw [div_lt_iff₀ hmpos]
        linarith
      nlinarith [hlog, hlog2, hfrac]

theorem cFactor_pos (m : ℕ) (hm : 2 ≤ m) : 0 < cFactor m := by
  unfold cFactor harmonicApprox
  rw [if_neg (by omega)]
  rcases eq_or_lt_of_le hm with he | hlt
  · subst he
    norm_num
  · have hm3 : 3 ≤ m := hlt
    have h1 : (2 : ℝ) ≤ ((m : ℝ) - 1) := by
      have : (3 : ℝ) ≤ (m : ℝ) := by exact_mod_cast hm3
      linarith
    have hlog2 : (0.6931471803 : ℝ) < Real.log 2 := Real.log_two_gt_d9
    have hlog : Real.log 2 ≤ Real.log ((m - 1 : ℕ) : ℝ) := by
      apply Real.log_le_log (by norm_num)
      have : ((m - 1 : ℕ) : ℝ) = (m : ℝ) - 1 := by
        have : 1 ≤ m := le_trans (by norm_num) hm
        push_cast [Nat.cast_sub this]
        ring
      rw [this]
      exact h1
    have hfrac : 2 * ((m : ℝ) - 1) / (m : ℝ) < 2 := by
      have hmpos : (0 : ℝ) < (m : ℝ) := by positivity
      rw [div_lt_iff₀ hmpos]
      linarith
    nlinarith [hlog, hlog2, hfrac]

/-! ### The score range -/

theorem pathLength_nonneg (t : ITree) (x : Vec) : 0 ≤ pathLength t x := by
  induction t with
  | leaf s => exact cFactor_nonneg s
  | node f split s l r ihl ihr =>
    rcases hv : getF x f with _ | v
    · simp only [pathLength, hv]
      exact cFactor_nonneg s
    · simp only [pathLength, hv]
      split
      · linarith
      · linarith

theorem meanPath_nonneg (F : List ITree) (x : Vec) : 0 ≤ meanPath F x := by
  unfold meanPath
  apply div_nonneg
  · apply List.sum_nonneg
    intro a ha
    rcases List.mem_map.mp ha with ⟨t, _, rfl⟩
    exact pathLength_nonneg t x
  · positivity

theorem anomalyScore_pos (F : List ITree) (psi : ℕ) (x : Vec) :
    0 < anomalyScore F psi x :=
  Real.rpow_pos_of_pos (by norm_num) _

theorem anomalyScore_le_one (F : List ITree) (psi : ℕ) (x : Vec) (hpsi : 2 ≤ psi) :
    anomalyScore F psi x ≤ 1 := by
  apply Real.rpow_le_one_of_one_le_of_nonpos (by norm_num)
  apply div_nonpos_of_nonpos_of_nonneg
  · simp [meanPath_nonneg F x]
  · exact le_of_lt (cFactor_pos psi hpsi)

theorem anomalyScore_antitone (F : List ITree) (psi : ℕ) (x y : Vec) (hpsi : 2 ≤ psi)
    (h : meanPath F x ≤ meanPath F y) :
    anomalyScore F psi y ≤ anomalyScore F psi x := by
  unfold anomalyScore
  rw [Real.rpow_le_rpow_left_iff (by norm_num : (1 : ℝ) < 2),
    div_le_div_iff_of_pos_right (cFactor_pos psi hpsi)]
  linarith

/-! ### The ranking order is total, transitive and antisymmetric -/

instance tieOrder_isTotal {α : Type} [LinearOrder α] : IsTotal (ℕ × α) tieOrder := by
  constructor
  intro a b
  rcases lt_trichotomy a.2 b.2 with h | h | h
  · exact Or.inr (Or.inl h)
  · rcases Nat.le_total a.1 b.1 with hn | hn
    · exact Or.inl (Or.inr ⟨h, hn⟩)
    · exact Or.inr (Or.inr ⟨h.symm, hn⟩)
  · exact Or.inl (Or.inl h)

instance tieOrder_isTrans {α : Type} [LinearOrder α] : IsTrans (ℕ × α) tieOrder := by
  constructor
  intro a b c hab hbc
  rcases hab with h1 | ⟨e1, n1⟩
  · rcases hbc with h2 | ⟨e2, _⟩
    · exact Or.inl (lt_trans h2 h1)
    · exact Or.inl (e2 ▸ h1)
  · rcases hbc with h2 | ⟨e2, n2⟩
    · exact Or.inl (e1 ▸ h2)
    · exact Or.inr ⟨e1.trans e2, le_trans n1 n2⟩

instance tieOrder_isAntisymm {α : Type} [LinearOrder α] : IsAntisymm (ℕ × α) tieOrder := by
  constructor
  intro a b hab hba
  rcases hab with h1 | ⟨e1, n1⟩
  · rcases hba with h2 | ⟨e2, _⟩
    · exact absurd (lt_trans h1 h2) (lt_irrefl _)
    · exact absurd h1 (e2 ▸ lt_irrefl _)
  · rcases hba with h2 | ⟨e2, n2⟩
    · exact absurd h2 (e1 ▸ lt_irrefl _)
    · exact Prod.ext (le_antisymm n1 n2) e1

/-! ### The merged moment columns, row by row -/

theorem aggFind_std (marks : List (ℕ × ℚ)) (c : ℕ) :
    (aggFind marks c).Center_Std_Dev = (stdDev (marksOf c marks)).map round3R := by
  unfold aggFind
  split
  · rfl
  · rename_i h
    rw [marksOf_eq_nil marks c h, stdDev_nil]
    rfl

theorem aggFind_skew (marks : List (ℕ × ℚ)) (c : ℕ) :
    (aggFind marks c).Center_Skewness = (skewness (marksOf c marks)).map round3R := by
  unfold aggFind
  split
  · rfl
  · rename_i h
    rw [marksOf_eq_nil marks c h, skewness_nil]
    rfl

theorem aggFind_kurt (marks : List (ℕ × ℚ)) (c : ℕ) :
    (aggFind marks c).Center_Kurtosis = (kurtosis (marksOf c marks)).map round3R := by
  unfold aggFind
  split
  · rfl
  · rename_i h
    rw [marksOf_eq_nil marks c h, kurtosis_nil]
    rfl

/-! ### Claim C4 -/

/-- C4: for every center group of marks, the per-group moments are reported as
missing exactly when the group is too small — the standard deviation for
`n < 2`, the skewness for `n < 3`, the kurtosis for `n < 4`; in particular a
group of size 2 gets a computed `Center_Std_Dev` but missing
`Center_Skewness`/`Center_Kurtosis`. -/
theorem momentColumns_missing_iff_group_small (marks : List (ℕ × ℚ)) (c : ℕ) :
    ((aggRowOf marks c).Center_Std_Dev = none ↔ (marksOf c marks).length < 2) ∧
    ((aggRowOf marks c).Center_Skewness = none ↔ (marksOf c marks).length < 3) ∧
    ((aggRowOf marks c).Center_Kurtosis = none ↔ (marksOf c marks).length < 4) ∧
    ((marksOf c marks).length = 2 →
      (aggRowOf marks c).Center_Std_Dev ≠ none ∧
      (aggRowOf marks c).Center_Skewness = none ∧
      (aggRowOf marks c).Center_Kurtosis = none) := by
  unfold aggRowOf
  simp only [Option.map_eq_none']
  refine ⟨stdDev_eq_none_iff _, skewness_eq_none_iff _, kurtosis_eq_none_iff _, ?_⟩
  intro h2
  refine ⟨?_, (skewness_eq_none_iff _).mpr (by omega), (kurtosis_eq_none_iff _).mpr (by omega)⟩
  intro hn
  have := (stdDev_eq_none_iff _).mp (Option.map_eq_none'.mp hn)
  omega

/-- A marks table realizing the size-2 scenario: center 1 has 2 marks,
center 2 has 3 marks. -/
def sizeTwoMarks : List (ℕ × ℚ) := [(1, 5), (1, 7), (2, 1), (2, 2), (2, 3)]

theorem momentColumns_missing_iff_group_small_witness :
    (marksOf 1 sizeTwoMarks).length = 2 ∧
    ((aggRowOf sizeTwoMarks 1).Center_Std_Dev ≠ none ∧
     (aggRowOf sizeTwoMarks 1).Center_Skewness = none ∧
     (aggRowOf sizeTwoMarks 1).Center_Kurtosis = none) :=
  ⟨by decide, (momentColumns_missing_iff_group_small sizeTwoMarks 1).2.2.2 (by decide)⟩

/-! ### Claim C10 -/

/-- C10: provided the `center_id` values in the center-stats table are
distinct, the left merge keeps every center-stats row exactly once and in
order, a center without a marks group gets missing moment columns, and no
aggregated-features row without a matching center-stats row appears. -/
theorem leftMerge_preserves_stats (stats : List CenterStats) (marks : List (ℕ × ℚ))
    (_hnd : (stats.map (fun s => s.center_id)).Nodup) :
    (masterOf stats marks).map (fun m => m.stats) = stats ∧
    ∀ m ∈ masterOf stats marks, marksOf m.stats.center_id marks = [] →
      m.Center_Std_Dev = none ∧ m.Center_Skewness = none ∧ m.Center_Kurtosis = none := by
  constructor
  · rw [masterOf_eq, List.map_map]
    have : ((fun m : MasterRow => m.stats) ∘ fun s => combineRow s (aggFind marks s.center_id))
        = fun s => s := by
      funext s
      rfl
    rw [this, List.map_id']
  · intro m hm hnil
    rw [masterOf_eq] at hm
    rcases List.mem_map.mp hm with ⟨s, hs, rfl⟩
    have hnotin : s.center_id ∉ centerIds marks := fun hin =>
      marksOf_ne_nil_of_mem marks s.center_id hin hnil
    simp [combineRow, aggFind, hnotin, noMatchAgg]

/-- A concrete center-stats table with distinct ids. -/
def twoStats : List CenterStats := [cexStats, zeroStats]

theorem leftMerge_preserves_stats_witness :
    (twoStats.map (fun s => s.center_id)).Nodup ∧
    ((masterOf twoStats cexMarks).map (fun m => m.stats) = twoStats ∧
     ∀ m ∈ masterOf twoStats cexMarks, marksOf m.stats.center_id cexMarks = [] →
       m.Center_Std_Dev = none ∧ m.Center_Skewness = none ∧ m.Center_Kurtosis = none) :=
  ⟨by decide, leftMerge_preserves_stats twoStats cexMarks (by decide)⟩

/-! ### Claim C8 -/

/-- C8: one-hot encoding of the categorical geography field drops exactly one
deterministic reference category — the first in sorted order — and every other
observed category becomes its own binary indicator column. -/
theorem oneHot_drops_first_sorted (l : List String) (hne : l ≠ []) :
    ∃ d, droppedCat l = some d ∧ d ∈ l ∧ (∀ c2 ∈ l, d ≤ c2) ∧
      (dummyCols l).Nodup ∧
      (∀ c2, c2 ∈ dummyCols l ↔ c2 ∈ l ∧ c2 ≠ d) ∧
      (dummyCols l).length = l.dedup.length - 1 ∧
      ∀ st, encodeState (dummyCols l) st =
        (dummyCols l).map (fun c2 => if st = c2 then 1 else 0) := by
  have hperm : List.Perm (sortedCats l) l.dedup := List.perm_insertionSort _ _
  have hnodup : (sortedCats l).Nodup := hperm.nodup_iff.mpr (List.nodup_dedup l)
  have hsorted : (sortedCats l).Sorted (fun a b => a ≤ b) := List.sorted_insertionSort _ _
  have hmem : ∀ x, x ∈ sortedCats l ↔ x ∈ l := by
    intro x
    rw [hperm.mem_iff, List.mem_dedup]
  have hne2 : sortedCats l ≠ [] := by
    intro h
    apply hne
    rw [← List.dedup_eq_nil, ← List.length_eq_zero]
    have hl := hperm.length_eq
    rw [h] at hl
    simpa using hl.symm
  obtain ⟨d, ds, hds⟩ := List.exists_cons_of_ne_nil hne2
  have hcols : dummyCols l = ds := by
    unfold dummyCols
    rw [hds, List.tail_cons]
  have hdrop : droppedCat l = some d := by
    unfold droppedCat
    rw [hds]
    rfl
  have hdnotin : d ∉ ds := (List.nodup_cons.mp (hds ▸ hnodup)).1
  have hdsnodup : ds.Nodup := (List.nodup_cons.mp (hds ▸ hnodup)).2
  have hdle : ∀ b ∈ ds, d ≤ b := (List.sorted_cons.mp (hds ▸ hsorted)).1
  refine ⟨d, hdrop, ?_, ?_, hcols ▸ hdsnodup, ?_, ?_, fun st => rfl⟩
  · exact (hmem d).mp (hds ▸ List.mem_cons_self d ds)
  · intro c2 hc2
    have : c2 ∈ sortedCats l := (hmem c2).mpr hc2
    rw [hds] at this
    rcases List.mem_cons.mp this with h | h
    · exact le_of_eq h.symm
    · exact hdle c2 h
  · intro c2
    rw [hcols]
    constructor
    · intro h
      refine ⟨(hmem c2).mp (hds ▸ List.mem_cons_of_mem d h), ?_⟩
      intro he
      exact hdnotin (he ▸ h)
    · rintro ⟨hin, hne3⟩
      have : c2 ∈ sortedCats l := (hmem c2).mpr hin
      rw [hds] at this
      rcases List.mem_cons.mp this with h | h
      · exact absurd h hne3
      · exact h
  · rw [hcols]
    have hlen : (sortedCats l).length = l.dedup.length := hperm.length_eq
    rw [hds] at hlen
    simp at hlen
    omega

theorem oneHot_drops_first_sorted_witness :
    (["b", "a", "c", "a"] : List String) ≠ [] ∧
    (∃ d, droppedCat ["b", "a", "c", "a"] = some d ∧ d ∈ ["b", "a", "c", "a"] ∧
      (∀ c2 ∈ ["b", "a", "c", "a"], d ≤ c2) ∧
      (dummyCols ["b", "a", "c", "a"]).Nodup ∧
      (∀ c2, c2 ∈ dummyCols ["b", "a", "c", "a"] ↔
        c2 ∈ ["b", "a", "c", "a"] ∧ c2 ≠ d) ∧
      (dummyCols ["b", "a", "c", "a"]).length =
        (["b", "a", "c", "a"] : List String).dedup.length - 1 ∧
      ∀ st, encodeState (dummyCols ["b", "a", "c", "a"]) st =
        (dummyCols ["b", "a", "c", "a"]).map (fun c2 => if st = c2 then 1 else 0)) :=
  ⟨by simp, oneHot_drops_first_sorted ["b", "a", "c", "a"] (by simp)⟩

/-! ### Claim C7 -/

theorem sampleVar_cexList : sampleVar [0, 0, 1, 2] = 11 / 12 := by
  norm_num [sampleVar, qmean]

theorem kurtosis_cexList : kurtosis [0, 0, 1, 2] = some ((-156 : ℝ) / 121) := by
  have h0 : (0 : ℝ) ≤ ((sampleVar [0, 0, 1, 2] : ℚ) : ℝ) := by
    rw [sampleVar_cexList]
    norm_num
  have hqm : qmean [0, 0, 1, 2] = 3 / 4 := by
    norm_num [qmean]
  have hs2 : Real.sqrt ((sampleVar [0, 0, 1, 2] : ℚ) : ℝ) ^ 2 = (11 : ℝ) / 12 := by
    rw [Real.sq_sqrt h0, sampleVar_cexList]
    push_cast
    norm_num
  have hs4 : Real.sqrt ((sampleVar [0, 0, 1, 2] : ℚ) : ℝ) ^ 4 = ((11 : ℝ) / 12) ^ 2 := by
    have h44 : Real.sqrt ((sampleVar [0, 0, 1, 2] : ℚ) : ℝ) ^ 4
        = (Real.sqrt ((sampleVar [0, 0, 1, 2] : ℚ) : ℝ) ^ 2) ^ 2 := by
      ring
    rw [h44, hs2]
  have hterm : ∀ d : ℝ,
      (d / Real.sqrt ((sampleVar [0, 0, 1, 2] : ℚ) : ℝ)) ^ 4
        = d ^ 4 / ((11 : ℝ) / 12) ^ 2 := by
    intro d
    rw [div_pow, hs4]
  unfold kurtosis
  rw [if_neg (by norm_num)]
  simp only [List.map_cons, List.map_nil, List.sum_cons, List.sum_nil, List.length_cons,
    List.length_nil, hterm, hqm]
  push_cast
  norm_num

theorem round3R_cexVal : round3R ((-156 : ℝ) / 121) = (-1289 : ℝ) / 1000 := by
  have hfl : ⌊(1000 : ℝ) * ((-156 : ℝ) / 121)⌋ = -1290 := by
    apply Int.floor_eq_iff.mpr
    constructor <;> norm_num
  unfold round3R roundHalfEvenR
  rw [hfl]
  rw [if_neg (by norm_num), if_pos (by norm_num)]
  norm_num

/-- C7 counterexample: for the marks group `[0, 0, 1, 2]` of center 1 the
master table — the table the anomaly-scoring stage loads — stores the rounded
kurtosis `-1.289`, while the full-precision kurtosis is `-156/121`; the two
differ, so full precision is not retained for scoring. -/
theorem masterKurtosis_not_full_precision :
    (masterOf [cexStats] cexMarks).map (fun m => m.Center_Kurtosis)
        = [some ((-1289 : ℝ) / 1000)] ∧
    kurtosis (marksOf 1 cexMarks) = some ((-156 : ℝ) / 121) ∧
    ((-1289 : ℝ) / 1000) ≠ ((-156 : ℝ) / 121) := by
  have hxs : marksOf 1 cexMarks = [0, 0, 1, 2] := by decide
  have hfull : kurtosis (marksOf 1 cexMarks) = some ((-156 : ℝ) / 121) := by
    rw [hxs, kurtosis_cexList]
  refine ⟨?_, hfull, by norm_num⟩
  rw [masterOf_eq]
  simp only [List.map_map, List.map_cons, List.map_nil, Function.comp]
  have hcid : cexStats.center_id = 1 := rfl
  have : (combineRow cexStats (aggFind cexMarks cexStats.center_id)).Center_Kurtosis
      = some ((-1289 : ℝ) / 1000) := by
    show (aggFind cexMarks cexStats.center_id).Center_Kurtosis = _
    rw [hcid, aggFind_kurt cexMarks 1, hfull]
    simp [round3R_cexVal]
  rw [this]

/-- C7 amended: the moment columns of the master table are the 3-decimal
roundings of the full-precision moments, and the anomaly-scoring stage consumes
exactly these stored (rounded) columns — full precision is not retained for
scoring. -/
theorem master_moments_rounded (stats : List CenterStats) (marks : List (ℕ × ℚ)) :
    ((masterOf stats marks).map (fun m => m.Center_Std_Dev) =
      stats.map (fun s => (stdDev (marksOf s.center_id marks)).map round3R)) ∧
    ((masterOf stats marks).map (fun m => m.Center_Skewness) =
      stats.map (fun s => (skewness (marksOf s.center_id marks)).map round3R)) ∧
    ((masterOf stats marks).map (fun m => m.Center_Kurtosis) =
      stats.map (fun s => (kurtosis (marksOf s.center_id marks)).map round3R)) ∧
    ∀ rows r, (rawFeatures rows r).getD 2 none = r.Center_Kurtosis := by
  refine ⟨?_, ?_, ?_, fun rows r => rfl⟩
  all_goals
    rw [masterOf_eq, List.map_map]
    apply List.map_congr_left
    intro s _
    first
      | exact aggFind_std marks s.center_id
      | exact aggFind_skew marks s.center_id
      | exact aggFind_kurt marks s.center_id

/-! ### Claim C2 -/

/-- C2: for every scored point, the anomaly score equals
`2^(−E[h(x)]/c(ψ))` where `E[h(x)]` is the mean path length over the trees and
`c` is evaluated at the training subsample size `ψ`; every score lies in
`(0, 1]`, and the score decreases as the mean path length grows (scores near 1
indicate anomalous points, scores near 0.5 or below normal ones). -/
theorem anomalyScore_formula_range (F : List ITree) (psi : ℕ) (x y : Vec)
    (hpsi : 2 ≤ psi) :
    anomalyScore F psi x = (2 : ℝ) ^ (-(meanPath F x) / cFactor psi) ∧
    0 < anomalyScore F psi x ∧ anomalyScore F psi x ≤ 1 ∧
    (meanPath F x ≤ meanPath F y → anomalyScore F psi y ≤ anomalyScore F psi x) :=
  ⟨rfl, anomalyScore_pos F psi x, anomalyScore_le_one F psi x hpsi,
    anomalyScore_antitone F psi x y hpsi⟩

theorem anomalyScore_formula_range_witness :
    2 ≤ 2 ∧
    (anomalyScore [ITree.leaf 1] 2 [] =
        (2 : ℝ) ^ (-(meanPath [ITree.leaf 1] []) / cFactor 2) ∧
      0 < anomalyScore [ITree.leaf 1] 2 [] ∧ anomalyScore [ITree.leaf 1] 2 [] ≤ 1 ∧
      (meanPath [ITree.leaf 1] [] ≤ meanPath [ITree.leaf 1] [] →
        anomalyScore [ITree.leaf 1] 2 [] ≤ anomalyScore [ITree.leaf 1] 2 [])) :=
  ⟨by norm_num, anomalyScore_formula_range [ITree.leaf 1] 2 [] [] (by norm_num)⟩

/-! ### Claim C3 -/

/-- C3: for a fixed random seed and identical input, two runs of forest
construction followed by scoring produce identical trees, scores and flags —
the whole pipeline is a pure function of the input rows and the seed. -/
theorem pipeline_deterministic (seed t psi : ℕ) (p : ℚ) (rows1 rows2 : List MasterRow)
    (h : rows1 = rows2) :
    runPipeline seed t psi p rows1 = runPipeline seed t psi p rows2 := by
  rw [h]

theorem pipeline_deterministic_witness :
    ([missingMomentsRow] : List MasterRow) = [missingMomentsRow] ∧
    runPipeline 42 100 256 (3 / 200) [missingMomentsRow] =
      runPipeline 42 100 256 (3 / 200) [missingMomentsRow] :=
  ⟨rfl, pipeline_deterministic 42 100 256 (3 / 200) [missingMomentsRow] [missingMomentsRow] rfl⟩

/-! ### Claim C5 -/

/-- C5: a center whose moment features are missing is still scored — it keeps
its entry in the scored output, its score is a well-defined value in `(0, 1]`,
and no error is raised for it (the scoring stage is total). -/
theorem missingMoments_still_scored (seed t psi : ℕ) (rows : List MasterRow) (r : MasterRow)
    (hmem : r ∈ rows)
    (_hmiss : r.Center_Std_Dev = none ∨ r.Center_Skewness = none ∨ r.Center_Kurtosis = none)
    (hpsi : 2 ≤ psi) :
    (scoredRows seed t psi rows).length = rows.length ∧
    (r, pipelineScore seed t psi rows r) ∈ scoredRows seed t psi rows ∧
    0 < pipelineScore seed t psi rows r ∧ pipelineScore seed t psi rows r ≤ 1 := by
  refine ⟨?_, ?_, anomalyScore_pos _ _ _, anomalyScore_le_one _ _ _ hpsi⟩
  · simp [scoredRows]
  · unfold scoredRows
    exact List.mem_map.mpr ⟨r, hmem, rfl⟩

theorem missingMoments_still_scored_witness :
    missingMomentsRow ∈ ([missingMomentsRow] : List MasterRow) ∧
    missingMomentsRow.Center_Std_Dev = none ∧
    ((scoredRows 42 100 2 [missingMomentsRow]).length = 1 ∧
      (missingMomentsRow, pipelineScore 42 100 2 [missingMomentsRow] missingMomentsRow) ∈
        scoredRows 42 100 2 [missingMomentsRow] ∧
      0 < pipelineScore 42 100 2 [missingMomentsRow] missingMomentsRow ∧
      pipelineScore 42 100 2 [missingMomentsRow] missingMomentsRow ≤ 1) :=
  ⟨by simp, rfl,
    missingMoments_still_scored 42 100 2 [missingMomentsRow] missingMomentsRow
      (by simp) (Or.inl rfl) (by norm_num)⟩

/-! ### Claim C6 -/

/-- C6: a center record with `total_students = 0` has an undefined
`Ultra_High_Score_Ratio` (and the ratio is undefined only for such records);
the undefined entry is excluded from scaling for that record (it stays missing
after the transform and takes no part in the fit), and the record's anomaly
score is still a well-defined value in `(0, 1]`, not a propagated NaN. -/
theorem zeroStudents_ratio_excluded (stats : List CenterStats) (marks : List (ℕ × ℚ))
    (seed t psi : ℕ) (s : CenterStats) (hs : s ∈ stats) (h0 : s.total_students = 0)
    (hpsi : 2 ≤ psi) :
    (∀ m ∈ masterOf stats marks,
      (m.Ultra_High_Score_Ratio = none ↔ m.stats.total_students = 0)) ∧
    ∃ m, m ∈ masterOf stats marks ∧ m.stats = s ∧
      m.Ultra_High_Score_Ratio = none ∧
      (scaleRow ((masterOf stats marks).map (rawFeatures (masterOf stats marks)))
        (rawFeatures (masterOf stats marks) m)).getD 3 none = none ∧
      0 < pipelineScore seed t psi (masterOf stats marks) m ∧
      pipelineScore seed t psi (masterOf stats marks) m ≤ 1 := by
  constructor
  · intro m hm
    rw [masterOf_eq] at hm
    rcases List.mem_map.mp hm with ⟨s1, _, rfl⟩
    show ultraHighScoreRatio s1 = none ↔ s1.total_students = 0
    unfold ultraHighScoreRatio
    split <;> simp_all
  · refine ⟨combineRow s (aggFind marks s.center_id), ?_, rfl, ?_, ?_,
      anomalyScore_pos _ _ _, anomalyScore_le_one _ _ _ hpsi⟩
    · rw [masterOf_eq]
      exact List.mem_map.mpr ⟨s, hs, rfl⟩
    · show ultraHighScoreRatio s = none
      unfold ultraHighScoreRatio
      rw [if_pos h0]
    · have hru : (combineRow s (aggFind marks s.center_id)).Ultra_High_Score_Ratio = none := by
        show ultraHighScoreRatio s = none
        unfold ultraHighScoreRatio
        rw [if_pos h0]
      unfold rawFeatures
      rw [hru]
      simp [scaleRow, scaleRowAux, scaleEntry]

theorem zeroStudents_ratio_excluded_witness :
    zeroStats ∈ twoStats ∧ zeroStats.total_students = 0 ∧ 2 ≤ 2 ∧
    ((∀ m ∈ masterOf twoStats cexMarks,
        (m.Ultra_High_Score_Ratio = none ↔ m.stats.total_students = 0)) ∧
      ∃ m, m ∈ masterOf twoStats cexMarks ∧ m.stats = zeroStats ∧
        m.Ultra_High_Score_Ratio = none ∧
        (scaleRow ((masterOf twoStats cexMarks).map (rawFeatures (masterOf twoStats cexMarks)))
          (rawFeatures (masterOf twoStats cexMarks) m)).getD 3 none = none ∧
        0 < pipelineScore 42 100 2 (masterOf twoStats cexMarks) m ∧
        pipelineScore 42 100 2 (masterOf twoStats cexMarks) m ≤ 1) :=
  ⟨by simp [twoStats], rfl, by norm_num,
    zeroStudents_ratio_excluded twoStats cexMarks 42 100 2 zeroStats
      (by simp [twoStats]) rfl (by norm_num)⟩

/-! ### Claim C9 -/

/-- C9: the anomaly-detection stage only extends each input record — the saved
output keeps every original row unchanged (in order) and adds exactly the
columns `Anomaly_Flag`, `Anomaly_Score` and `Anomaly_Type`; the flag is always
`-1` or `1`, and the type is `'Anomalous Center'` exactly when the flag is
`-1`, otherwise `'Normal Center'`. -/
theorem anomalyStage_extends_rows (seed t psi : ℕ) (p : ℚ) (rows : List MasterRow) :
    ((anomalyStage seed t psi p rows).map (fun o => o.base) = rows) ∧
    ∀ o ∈ anomalyStage seed t psi p rows,
      (o.Anomaly_Flag = -1 ∨ o.Anomaly_Flag = 1) ∧
      (o.Anomaly_Type = "Anomalous Center" ↔ o.Anomaly_Flag = -1) ∧
      (o.Anomaly_Flag ≠ -1 → o.Anomaly_Type = "Normal Center") := by
  have hflen :
      (predictFlags p (rows.map (fun r => r.stats.center_id))
        (rows.map (pipelineScore seed t psi rows))).length = rows.length := by
    unfold predictFlags
    simp
  constructor
  · unfold anomalyStage
    rw [List.map_map]
    have : ((fun o : ResultRow => o.base) ∘ fun rfs : MasterRow × ℤ × ℝ =>
        ({ base := rfs.1, Anomaly_Flag := rfs.2.1, Anomaly_Score := rfs.2.2,
           Anomaly_Type := if rfs.2.1 = -1 then "Anomalous Center" else "Normal Center" }
          : ResultRow)) = Prod.fst := by
      funext rfs
      rfl
    rw [this]
    apply List.map_fst_zip
    simp [hflen]
  · intro o ho
    unfold anomalyStage at ho
    rcases List.mem_map.mp ho with ⟨rfs, hrfs, rfl⟩
    have hfmem : rfs.2.1 ∈ predictFlags p (rows.map (fun r => r.stats.center_id))
        (rows.map (pipelineScore seed t psi rows)) := by
      have h2 := (List.of_mem_zip hrfs).2
      have h21 := (List.of_mem_zip (by exact h2)).1
      exact h21
    have hval : rfs.2.1 = -1 ∨ rfs.2.1 = 1 := by
      unfold predictFlags at hfmem
      rcases List.mem_map.mp hfmem with ⟨a, _, hae⟩
      rw [← hae]
      unfold flagOf
      split
      · exact Or.inl rfl
      · exact Or.inr rfl
    refine ⟨hval, ?_, ?_⟩
    · show (if rfs.2.1 = -1 then "Anomalous Center" else "Normal Center") =
        "Anomalous Center" ↔ rfs.2.1 = -1
      split
      · simp_all
      · rename_i hne4
        simp only [iff_false, hne4]
        intro hcontra
        simp_all
    · intro hne5
      show (if rfs.2.1 = -1 then "Anomalous Center" else "Normal Center") = "Normal Center"
      rw [if_neg hne5]

theorem anomalyStage_extends_rows_witness :
    ((anomalyStage 42 100 256 (3 / 200) [missingMomentsRow]).map (fun o => o.base) =
      [missingMomentsRow]) ∧
    ∀ o ∈ anomalyStage 42 100 256 (3 / 200) [missingMomentsRow],
      (o.Anomaly_Flag = -1 ∨ o.Anomaly_Flag = 1) ∧
      (o.Anomaly_Type = "Anomalous Center" ↔ o.Anomaly_Flag = -1) ∧
      (o.Anomaly_Flag ≠ -1 → o.Anomaly_Type = "Normal Center") :=
  anomalyStage_extends_rows 42 100 256 (3 / 200) [missingMomentsRow]

/-! ### Claim C1 -/

theorem kOf_le {p : ℚ} (n : ℕ) (hp1 : p ≤ 1) : kOf p n ≤ n := by
  unfold kOf
  rw [Int.toNat_le]
  apply Int.ceil_le.mpr
  push_cast
  have hn : (0 : ℚ) ≤ (n : ℚ) := by positivity
  nlinarith

theorem kOf_cast {p : ℚ} (n : ℕ) (hp0 : 0 ≤ p) : ((kOf p n : ℕ) : ℤ) = ⌈p * (n : ℚ)⌉ := by
  unfold kOf
  apply Int.toNat_of_nonneg
  apply Int.ceil_nonneg
  have hn : (0 : ℚ) ≤ (n : ℚ) := by positivity
  nlinarith

theorem rankAnomalies_countP {α : Type} [LinearOrder α] (p : ℚ) (l : List (ℕ × α))
    (hp1 : p ≤ 1) :
    (rankAnomalies p l).countP (fun e => e.2) = kOf p l.length := by
  unfold rankAnomalies
  rw [List.countP_append, List.countP_map, List.countP_map]
  have h1 : ((fun e : (ℕ × α) × Bool => e.2) ∘ fun a => (a, true)) = fun _ => true := rfl
  have h2 : ((fun e : (ℕ × α) × Bool => e.2) ∘ fun a => (a, false)) = fun _ => false := rfl
  rw [h1, h2, List.countP_true, List.countP_false]
  simp only [Function.const_apply, add_zero, List.length_take, List.length_insertionSort]
  exact min_eq_left (kOf_le _ hp1)

theorem rankAnomalies_perm_eq {α : Type} [LinearOrder α] (p : ℚ) (l1 l2 : List (ℕ × α))
    (hperm : List.Perm l1 l2) :
    rankAnomalies p l1 = rankAnomalies p l2 := by
  have hs : List.insertionSort tieOrder l1 = List.insertionSort tieOrder l2 :=
    List.eq_of_perm_of_sorted
      ((List.perm_insertionSort tieOrder l1).trans
        (hperm.trans (List.perm_insertionSort tieOrder l2).symm))
      (List.sorted_insertionSort tieOrder l1)
      (List.sorted_insertionSort tieOrder l2)
  unfold rankAnomalies
  rw [hs, hperm.length_eq]

theorem rankAnomalies_flagged {α : Type} [LinearOrder α] (p : ℚ) (l : List (ℕ × α)) :
    ((rankAnomalies p l).filter (fun e => e.2)).map (fun e => e.1) =
      (List.insertionSort tieOrder l).take (kOf p l.length) := by
  unfold rankAnomalies
  rw [List.filter_append, List.filter_map, List.filter_map]
  have h1 : ((fun e : (ℕ × α) × Bool => e.2) ∘ fun a => (a, true)) = fun _ => true := rfl
  have h2 : ((fun e : (ℕ × α) × Bool => e.2) ∘ fun a => (a, false)) = fun _ => false := rfl
  rw [h1, h2, List.filter_true, List.filter_false]
  have h3 : ((fun e : (ℕ × α) × Bool => e.1) ∘ fun a => (a, true)) = id := rfl
  simp [h3]

theorem countP_flagOf_eq_length {α : Type} [LinearOrder α] (l T : List (ℕ × α))
    (hT : T.Nodup) (hl : l.Nodup) (hsub : T ⊆ l) :
    l.countP ((fun x : ℤ => x == -1) ∘ flagOf T) = T.length := by
  rw [List.countP_eq_length_filter]
  apply List.Perm.length_eq
  apply List.Subperm.antisymm
  · apply List.Nodup.subperm (hl.filter _)
    intro x hx
    have hq := (List.mem_filter.mp hx).2
    by_cases h : x ∈ T
    · exact h
    · exfalso
      revert hq
      simp [Function.comp, flagOf, h]
  · apply List.Nodup.subperm hT
    intro x hx
    refine List.mem_filter.mpr ⟨hsub hx, ?_⟩
    simp [Function.comp, flagOf, hx]

/-- C1: for a run on `n` centers with a valid contamination fraction `p`,
the number of centers flagged `-1` is exactly `⌈p · n⌉`, and score ties are
broken by `center_id` ascending, so the ranking (and with it the flagged set)
is the same for any permutation of the scored input. -/
theorem contamination_flag_count {α : Type} [LinearOrder α] (p : ℚ) (ids : List ℕ)
    (scores : List α) (l1 l2 : List (ℕ × α))
    (hp0 : 0 < p) (hp1 : p < 1) (hnd : ids.Nodup) (hlen : ids.length = scores.length)
    (hperm : List.Perm l1 l2) :
    ((predictFlags p ids scores).count (-1) : ℤ) = ⌈p * (ids.length : ℚ)⌉ ∧
    rankAnomalies p l1 = rankAnomalies p l2 := by
  refine ⟨?_, rankAnomalies_perm_eq p l1 l2 hperm⟩
  set scored := ids.zip scores with hscored
  have hslen : scored.length = ids.length := by
    rw [hscored, List.length_zip, hlen, min_self]
  have hsnodup : scored.Nodup := by
    apply List.Nodup.of_map Prod.fst
    rw [hscored, List.map_fst_zip ids scores (le_of_eq hlen)]
    exact hnd
  set T := (List.insertionSort tieOrder scored).take (kOf p scored.length) with hT
  have hsortnodup : (List.insertionSort tieOrder scored).Nodup :=
    ((List.perm_insertionSort tieOrder scored).nodup_iff).mpr hsnodup
  have hTnodup : T.Nodup := List.Nodup.sublist (List.take_sublist _ _) hsortnodup
  have hTsub : T ⊆ scored := fun x hx =>
    (List.perm_insertionSort tieOrder scored).subset (List.take_subset _ _ hx)
  have hTlen : T.length = kOf p scored.length := by
    rw [hT, List.length_take, List.length_insertionSort]
    exact min_eq_left (kOf_le _ (le_of_lt hp1))
  have hpf : predictFlags p ids scores =
      scored.map (flagOf (((rankAnomalies p scored).filter (fun a => a.2)).map
        (fun a => a.1))) := rfl
  rw [hpf, rankAnomalies_flagged, ← hT, List.count_eq_countP, List.countP_map]
  rw [countP_flagOf_eq_length scored T hTnodup hsnodup hTsub, hTlen, hslen,
    kOf_cast ids.length (le_of_lt hp0)]

theorem contamination_flag_count_witness :
    0 < (1 / 2 : ℚ) ∧ (1 / 2 : ℚ) < 1 ∧ ([10, 7, 3] : List ℕ).Nodup ∧
    ([10, 7, 3] : List ℕ).length = ([(5 : ℚ), 9, 5] : List ℚ).length ∧
    List.Perm [((1 : ℕ), (2 : ℚ)), (2, 2)] [((2 : ℕ), (2 : ℚ)), (1, 2)] ∧
    (((predictFlags (1 / 2) [10, 7, 3] [(5 : ℚ), 9, 5]).count (-1) : ℤ) =
        ⌈(1 / 2 : ℚ) * ((([10, 7, 3] : List ℕ).length : ℕ) : ℚ)⌉ ∧
      rankAnomalies (1 / 2) [((1 : ℕ), (2 : ℚ)), (2, 2)] =
        rankAnomalies (1 / 2) [((2 : ℕ), (2 : ℚ)), (1, 2)]) :=
  ⟨by norm_num, by norm_num, by decide, rfl, by decide,
    contamination_flag_count (1 / 2) [10, 7, 3] [(5 : ℚ), 9, 5] _ _
      (by norm_num) (by norm_num) (by decide) rfl (by decide)⟩

end EduDrishti
